import Mathlib

/-
Verification development for the heightmap-to-mesh chunk generator of
`src/world/map/terrain/generation.rs` and the border classifier of
`src/world/map/terrain/border_generator.rs`.

The Rust code is embedded shallowly:
 * `image::GrayImage` becomes `Heightmap` (width, height, per-pixel sample);
   every `get_pixel` call in the hot path is guarded by bounds checks in the
   source, and the embedding keeps exactly those guards.
 * `u32` arithmetic becomes `Nat` arithmetic; `saturating_sub` and the guarded
   `u32` subtractions of the source coincide with truncated `Nat` subtraction.
 * `f32` geometry becomes exact `ℚ` geometry.  The single irrational step
   (dividing an accumulated normal by its Euclidean length, lines 235-246)
   is embedded relationally over `ℝ` as `IsFinalNormal`.
 * `HashMap<(u32,u32),u32>` becomes an association list built in insertion
   order; the code never iterates the map, it only inserts fresh keys and
   reads back, so the association list has the same observable behaviour.
 * `Vec::push` becomes `List` append at the tail.
-/

namespace Terrain

/-- Read-only raster model of `image::GrayImage`: width, height and the
8-bit elevation sample of each pixel.  `pix` is total, but it is only ever
consulted at coordinates that the source guards to be in bounds. -/
structure Heightmap where
  width : Nat
  height : Nat
  pix : Nat → Nat → Nat

/-- The void sample value, `const VOID_HEIGHT: u8 = 0` (generation.rs line 7). -/
def VOID_HEIGHT : Nat := 0

/-- `let chunk_size = 128` (generation.rs line 14, hardcoded). -/
def chunk_size : Nat := 128

/-- `let height_scale = 0.3` (generation.rs line 62), as an exact rational. -/
def height_scale : ℚ := 3 / 10

/-- `start_x.saturating_sub(1)` (generation.rs line 18); `Nat` subtraction is
saturating exactly like `u32::saturating_sub`. -/
def expanded_start_x (sx : Nat) : Nat := sx - 1

/-- `start_z.saturating_sub(1)` (generation.rs line 19). -/
def expanded_start_z (sz : Nat) : Nat := sz - 1

/-- `(start_x + chunk_size + 1).min(heightmap.width())` (generation.rs line 20). -/
def expanded_end_x (hm : Heightmap) (sx : Nat) : Nat :=
  min (sx + chunk_size + 1) hm.width

/-- `(start_z + chunk_size + 1).min(heightmap.height())` (generation.rs line 21). -/
def expanded_end_z (hm : Heightmap) (sz : Nat) : Nat :=
  min (sz + chunk_size + 1) hm.height

/-- The degenerate-bounds test of generation.rs line 24:
`expanded_end_x <= expanded_start_x || expanded_end_z <= expanded_start_z`. -/
def degenerateBounds (hm : Heightmap) (sx sz : Nat) : Bool :=
  decide (expanded_end_x hm sx ≤ expanded_start_x sx) ||
  decide (expanded_end_z hm sz ≤ expanded_start_z sz)

/-- The fully-void pre-check of generation.rs lines 33-44: scan the original
(non-expanded) chunk window, clamped to the raster, for a non-void sample.
The loop bound `start_z + chunk_size.min(heightmap.height() - start_z)` is
reproduced verbatim (`Nat` subtraction matches the guarded `u32` one). -/
def hasTerrain (hm : Heightmap) (sx sz : Nat) : Bool :=
  (List.range (min chunk_size (hm.height - sz))).any fun dz =>
    (List.range (min chunk_size (hm.width - sx))).any fun dx =>
      hm.pix (sx + dx) (sz + dz) != VOID_HEIGHT

/-- Clause 1 of `is_needed` (generation.rs lines 71-73): a non-void pixel
up-left of lattice point `(x, z)`, with the source's bounds guards. -/
def adjTL (hm : Heightmap) (sx sz x z : Nat) : Bool :=
  decide (expanded_start_x sx < x) && decide (expanded_start_z sz < z) &&
  decide (x - 1 < hm.width) && decide (z - 1 < hm.height) &&
  (hm.pix (x - 1) (z - 1) != VOID_HEIGHT)

/-- Clause 2 of `is_needed` (generation.rs lines 75-77): a non-void pixel
up-right of lattice point `(x, z)`. -/
def adjTR (hm : Heightmap) (sx sz x z : Nat) : Bool :=
  decide (x < expanded_end_x hm sx) && decide (expanded_start_z sz < z) &&
  decide (x < hm.width) && decide (z - 1 < hm.height) &&
  (hm.pix x (z - 1) != VOID_HEIGHT)

/-- Clause 3 of `is_needed` (generation.rs lines 79-81): a non-void pixel
down-left of lattice point `(x, z)`. -/
def adjBL (hm : Heightmap) (sx sz x z : Nat) : Bool :=
  decide (expanded_start_x sx < x) && decide (z < expanded_end_z hm sz) &&
  decide (x - 1 < hm.width) && decide (z < hm.height) &&
  (hm.pix (x - 1) z != VOID_HEIGHT)

/-- Clause 4 of `is_needed` (generation.rs lines 83-85): a non-void pixel
down-right of lattice point `(x, z)`. -/
def adjBR (hm : Heightmap) (sx sz x z : Nat) : Bool :=
  decide (x < expanded_end_x hm sx) && decide (z < expanded_end_z hm sz) &&
  decide (x < hm.width) && decide (z < hm.height) &&
  (hm.pix x z != VOID_HEIGHT)

/-- `is_needed` (generation.rs lines 69-85): the four adjacency clauses. -/
def isNeeded (hm : Heightmap) (sx sz x z : Nat) : Bool :=
  adjTL hm sx sz x z || adjTR hm sx sz x z || adjBL hm sx sz x z || adjBR hm sx sz x z

/-- The height accumulation of generation.rs lines 89-116: sum and count of
the adjacent in-bounds non-void samples (same four guarded clauses). -/
def heightSumCount (hm : Heightmap) (sx sz x z : Nat) : ℚ × Nat :=
  let a0 : ℚ × Nat := (0, 0)
  let a1 := if adjTL hm sx sz x z then (a0.1 + (hm.pix (x - 1) (z - 1) : ℚ), a0.2 + 1) else a0
  let a2 := if adjTR hm sx sz x z then (a1.1 + (hm.pix x (z - 1) : ℚ), a1.2 + 1) else a1
  let a3 := if adjBL hm sx sz x z then (a2.1 + (hm.pix (x - 1) z : ℚ), a2.2 + 1) else a2
  if adjBR hm sx sz x z then (a3.1 + (hm.pix x z : ℚ), a3.2 + 1) else a3

/-- Vertex height (generation.rs lines 119-123): mean of the adjacent non-void
samples scaled by `height_scale`, or `0.0` when there is no such sample. -/
def heightAt (hm : Heightmap) (sx sz x z : Nat) : ℚ :=
  let sc := heightSumCount hm sx sz x z
  if 0 < sc.2 then (sc.1 / (sc.2 : ℚ)) * height_scale else 0

/-- An exact-rational 3-vector standing for the `[f32; 3]` mesh attributes. -/
structure Vec3 where
  x : ℚ
  y : ℚ
  z : ℚ
deriving DecidableEq, Repr

/-- An exact-rational 2-vector standing for the `[f32; 2]` uv attribute. -/
structure Vec2 where
  u : ℚ
  v : ℚ
deriving DecidableEq, Repr

/-- Vector addition, used by the normal accumulation loop. -/
def vadd (a b : Vec3) : Vec3 := ⟨a.x + b.x, a.y + b.y, a.z + b.z⟩

/-- Vertex position (generation.rs lines 127-132): local coordinates relative
to the original chunk origin (`(x as i32 - start_x as i32) as f32` may be
negative on the expanded ring, hence the `ℤ` cast), with the averaged height. -/
def vertexPos (hm : Heightmap) (sx sz x z : Nat) : Vec3 :=
  ⟨((x : ℤ) : ℚ) - ((sx : ℤ) : ℚ), heightAt hm sx sz x z, ((z : ℤ) : ℚ) - ((sz : ℤ) : ℚ)⟩

/-- Vertex uv (generation.rs lines 134-137). -/
def vertexUV (hm : Heightmap) (sx sz x z : Nat) : Vec2 :=
  ⟨((x - expanded_start_x sx : Nat) : ℚ) / ((expanded_end_x hm sx - expanded_start_x sx : Nat) : ℚ),
   ((z - expanded_start_z sz : Nat) : ℚ) / ((expanded_end_z hm sz - expanded_start_z sz : Nat) : ℚ)⟩

/-- The lattice points of the first pass (generation.rs lines 66-67), row-major:
`for z in expanded_start_z..expanded_end_z + 1 { for x in expanded_start_x..expanded_end_x + 1 }`. -/
def latticePoints (hm : Heightmap) (sx sz : Nat) : List (Nat × Nat) :=
  (List.range (expanded_end_z hm sz + 1 - expanded_start_z sz)).flatMap fun dz =>
    (List.range (expanded_end_x hm sx + 1 - expanded_start_x sx)).map fun dx =>
      (expanded_start_x sx + dx, expanded_start_z sz + dz)

/-- State of the vertex-building pass: the three attribute buffers plus the
coordinate-to-index lookup (`vertex_map`), kept in insertion order. -/
structure VState where
  positions : List Vec3
  normals : List Vec3
  uvs : List Vec2
  vmap : List ((Nat × Nat) × Nat)
deriving DecidableEq, Repr

/-- One lattice point of the first pass (generation.rs lines 87-141): when the
vertex is needed, push position / placeholder normal / uv and record
`vertex_map.insert((x, z), vertex_index)` with `vertex_index = positions.len()`. -/
def vertexStep (hm : Heightmap) (sx sz : Nat) (st : VState) (p : Nat × Nat) : VState :=
  if isNeeded hm sx sz p.1 p.2 then
    { positions := st.positions ++ [vertexPos hm sx sz p.1 p.2]
      normals := st.normals ++ [⟨0, 1, 0⟩]
      uvs := st.uvs ++ [vertexUV hm sx sz p.1 p.2]
      vmap := st.vmap ++ [((p.1, p.2), st.positions.length)] }
  else st

/-- The whole first pass (generation.rs lines 64-143). -/
def buildVertices (hm : Heightmap) (sx sz : Nat) : VState :=
  (latticePoints hm sx sz).foldl (vertexStep hm sx sz) ⟨[], [], [], []⟩

/-- `vertex_map.get(&k)`: first (and only) binding of the key. -/
def vlookup (m : List ((Nat × Nat) × Nat)) (k : Nat × Nat) : Option Nat :=
  (m.find? fun e => e.1 = k).map (·.2)

/-- The cells of the second pass (generation.rs lines 149-150), row-major:
`for z in expanded_start_z..expanded_end_z { for x in expanded_start_x..expanded_end_x }`. -/
def cellList (hm : Heightmap) (sx sz : Nat) : List (Nat × Nat) :=
  (List.range (expanded_end_z hm sz - expanded_start_z sz)).flatMap fun dz =>
    (List.range (expanded_end_x hm sx - expanded_start_x sx)).map fun dx =>
      (expanded_start_x sx + dx, expanded_start_z sz + dz)

/-- The indices one cell contributes (generation.rs lines 152-175): skip cells
whose pixel is out of bounds or void; emit the two triangles
`(top_right, top_left, bottom_right)` and `(top_left, bottom_left, bottom_right)`
only when all four corner vertices are present in the lookup. -/
def cellTris (hm : Heightmap) (vm : List ((Nat × Nat) × Nat))
    (c : Nat × Nat) : List Nat :=
  if decide (c.1 < hm.width) && decide (c.2 < hm.height) &&
      (hm.pix c.1 c.2 != VOID_HEIGHT) then
    match vlookup vm (c.1, c.2), vlookup vm (c.1 + 1, c.2),
        vlookup vm (c.1 + 1, c.2 + 1), vlookup vm (c.1, c.2 + 1) with
    | some tl, some tr, some br, some bl => [tr, tl, br, tl, bl, br]
    | _, _, _, _ => []
  else []

/-- Whether a cell lies in the original (non-expanded) chunk window
(generation.rs line 178). -/
def inChunk (sx sz : Nat) (c : Nat × Nat) : Bool :=
  decide (sx ≤ c.1) && decide (c.1 < sx + chunk_size) &&
  decide (sz ≤ c.2) && decide (c.2 < sz + chunk_size)

/-- `all_indices` (generation.rs lines 147-189): triangles of every cell of the
expanded window. -/
def allIndicesOf (hm : Heightmap) (sx sz : Nat) : List Nat :=
  (cellList hm sx sz).flatMap (cellTris hm (buildVertices hm sx sz).vmap)

/-- `indices` (generation.rs lines 176-186): only the triangles of cells inside
the original chunk window go to the final output buffer. -/
def indicesOf (hm : Heightmap) (sx sz : Nat) : List Nat :=
  (cellList hm sx sz).flatMap fun c =>
    if inChunk sx sz c then cellTris hm (buildVertices hm sx sz).vmap c else []

/-- Group an index buffer into triangles, three at a time; an incomplete tail
is dropped, mirroring the `i + 2 >= all_indices.len()` guard of line 204. -/
def chunk3 : List Nat → List (Nat × Nat × Nat)
  | i0 :: i1 :: i2 :: rest => (i0, i1, i2) :: chunk3 rest
  | _ => []

/-- `positions[i]`: the source only ever indexes with valid indices. -/
def getPos (ps : List Vec3) (i : Nat) : Vec3 := ps.getD i ⟨0, 0, 0⟩

/-- Face normal of one triangle (generation.rs lines 208-225): cross product of
the edge vectors `p1 - p0` and `p2 - p0`. -/
def triNormal (ps : List Vec3) (t : Nat × Nat × Nat) : Vec3 :=
  let p0 := getPos ps t.1
  let p1 := getPos ps t.2.1
  let p2 := getPos ps t.2.2
  let v1 : Vec3 := ⟨p1.x - p0.x, p1.y - p0.y, p1.z - p0.z⟩
  let v2 : Vec3 := ⟨p2.x - p0.x, p2.y - p0.y, p2.z - p0.z⟩
  ⟨v1.y * v2.z - v1.z * v2.y, v1.z * v2.x - v1.x * v2.z, v1.x * v2.y - v1.y * v2.x⟩

/-- `normals[idx] += normal` for one vertex of a triangle (lines 228-232). -/
def addNormalAt (ns : List Vec3) (i : Nat) (v : Vec3) : List Vec3 :=
  ns.set i (vadd (ns.getD i ⟨0, 0, 0⟩) v)

/-- The accumulation loop over the expanded-window triangle list
(generation.rs lines 203-233). -/
def accumulateNormals (ps : List Vec3) (ns : List Vec3)
    (tris : List (Nat × Nat × Nat)) : List Vec3 :=
  tris.foldl
    (fun ns t =>
      let n := triNormal ps t
      addNormalAt (addNormalAt (addNormalAt ns t.1 n) t.2.1 n) t.2.2 n)
    ns

/-- The accumulated (pre-normalization) per-vertex normals: the buffer is
zeroed (lines 198-200) and then every triangle of `all_indices` adds its face
normal to its three vertices. -/
def accNormals (hm : Heightmap) (sx sz : Nat) : List Vec3 :=
  let st := buildVertices hm sx sz
  accumulateNormals st.positions (st.normals.map fun _ => ⟨0, 0, 0⟩)
    (chunk3 (allIndicesOf hm sx sz))

/-- Squared Euclidean length of an accumulated normal. -/
def lengthSq (v : Vec3) : ℚ := v.x * v.x + v.y * v.y + v.z * v.z

/-- The final in-place normalization (generation.rs lines 235-246), embedded
relationally over `ℝ` because it divides by a square root: if the length
exceeds `0.0001` the vector is divided by its length, otherwise it is replaced
by the up vector `(0, 1, 0)`. -/
def IsFinalNormal (v : Vec3) (n : ℝ × ℝ × ℝ) : Prop :=
  let L : ℝ := Real.sqrt ((lengthSq v : ℚ) : ℝ)
  (1 / 10000 < L ∧ n = (((v.x : ℚ) : ℝ) / L, ((v.y : ℚ) : ℝ) / L, ((v.z : ℚ) : ℝ) / L)) ∨
  (¬ 1 / 10000 < L ∧ n = (0, 1, 0))

/-- The returned mesh buffers.  `normals` holds the accumulated vectors of
lines 203-233; the in-place normalization of lines 235-246 is expressed by
`IsFinalNormal` on each entry. -/
structure MeshBuffer where
  positions : List Vec3
  normals : List Vec3
  uvs : List Vec2
  indices : List Nat
deriving DecidableEq, Repr

/-- `generate_terrain_mesh` (generation.rs lines 9-264): degenerate bounds give
`None` (line 25), a fully void chunk gives `None` (line 48), empty final
indices give `None` (line 193), and otherwise the four buffers are returned.
The `generate_border` call on line 248 returns nothing and touches no buffer,
so it does not appear here; it is modelled separately below. -/
def generate_terrain_mesh (hm : Heightmap) (sx sz : Nat) : Option MeshBuffer :=
  if degenerateBounds hm sx sz then none
  else if !hasTerrain hm sx sz then none
  else
    let st := buildVertices hm sx sz
    let idx := indicesOf hm sx sz
    if idx = [] then none
    else some ⟨st.positions, accNormals hm sx sz, st.uvs, idx⟩

/-- The accumulated normal stored for the vertex at lattice point `k` of the
mesh returned for chunk `(sx, sz)`, read back through the coordinate lookup. -/
def accNormalAt (hm : Heightmap) (sx sz : Nat) (k : Nat × Nat) : Option Vec3 :=
  (generate_terrain_mesh hm sx sz).bind fun m =>
    (vlookup (buildVertices hm sx sz).vmap k).map fun i => m.normals.getD i ⟨0, 0, 0⟩

/-- How many of the four corner vertices of cell `c` are present in the
coordinate-to-index lookup (the presence mask population count that the
source's four-way `if let` of lines 159-164 tests for fullness). -/
def presentCorners (hm : Heightmap) (sx sz : Nat) (c : Nat × Nat) : Nat :=
  ([(c.1, c.2), (c.1 + 1, c.2), (c.1 + 1, c.2 + 1), (c.1, c.2 + 1)]).countP
    fun k => (vlookup (buildVertices hm sx sz).vmap k).isSome

/-- The final output triangles of a chunk, each tagged with the cell it came
from: exactly the cells of the expanded walk that pass the `inChunk` test of
line 178 contribute, with the same two triangles they push to `indices`. -/
def finalTriangleCells (hm : Heightmap) (sx sz : Nat) :
    List ((Nat × Nat) × (Nat × Nat × Nat)) :=
  (cellList hm sx sz).flatMap fun c =>
    if inChunk sx sz c then
      (chunk3 (cellTris hm (buildVertices hm sx sz).vmap c)).map fun t => (c, t)
    else []

/-
A second rendering of the vertex pass for the determinism claim: the
`HashMap` is replaced by an extensional function map.  The observable output
of a hash map through `insert`/`get` alone is a function of its key-value
content, never of bucket order, so the source's nondeterministic hash seeds
cannot influence anything the pipeline reads; proving the two pipelines equal
makes that exact.
-/

/-- Vertex-pass state with the lookup as an extensional function. -/
structure VStateF where
  positions : List Vec3
  normals : List Vec3
  uvs : List Vec2
  vmap : (Nat × Nat) → Option Nat

/-- `vertexStep` against the function map (`insert` = pointwise override). -/
def vertexStepF (hm : Heightmap) (sx sz : Nat) (st : VStateF) (p : Nat × Nat) :
    VStateF :=
  if isNeeded hm sx sz p.1 p.2 then
    { positions := st.positions ++ [vertexPos hm sx sz p.1 p.2]
      normals := st.normals ++ [⟨0, 1, 0⟩]
      uvs := st.uvs ++ [vertexUV hm sx sz p.1 p.2]
      vmap := fun k => if k = (p.1, p.2) then some st.positions.length else st.vmap k }
  else st

/-- The first pass against the function map. -/
def buildVerticesF (hm : Heightmap) (sx sz : Nat) : VStateF :=
  (latticePoints hm sx sz).foldl (vertexStepF hm sx sz) ⟨[], [], [], fun _ => none⟩

/-- `cellTris` against the function map. -/
def cellTrisF (hm : Heightmap) (vm : (Nat × Nat) → Option Nat) (c : Nat × Nat) :
    List Nat :=
  if decide (c.1 < hm.width) && decide (c.2 < hm.height) &&
      (hm.pix c.1 c.2 != VOID_HEIGHT) then
    match vm (c.1, c.2), vm (c.1 + 1, c.2), vm (c.1 + 1, c.2 + 1), vm (c.1, c.2 + 1) with
    | some tl, some tr, some br, some bl => [tr, tl, br, tl, bl, br]
    | _, _, _, _ => []
  else []

/-- `all_indices` against the function map. -/
def allIndicesOfF (hm : Heightmap) (sx sz : Nat) : List Nat :=
  (cellList hm sx sz).flatMap (cellTrisF hm (buildVerticesF hm sx sz).vmap)

/-- `indices` against the function map. -/
def indicesOfF (hm : Heightmap) (sx sz : Nat) : List Nat :=
  (cellList hm sx sz).flatMap fun c =>
    if inChunk sx sz c then cellTrisF hm (buildVerticesF hm sx sz).vmap c else []

/-- The accumulated normals against the function map. -/
def accNormalsF (hm : Heightmap) (sx sz : Nat) : List Vec3 :=
  let st := buildVerticesF hm sx sz
  accumulateNormals st.positions (st.normals.map fun _ => ⟨0, 0, 0⟩)
    (chunk3 (allIndicesOfF hm sx sz))

/-- The whole generator against the function map. -/
def generate_terrain_meshF (hm : Heightmap) (sx sz : Nat) : Option MeshBuffer :=
  if degenerateBounds hm sx sz then none
  else if !hasTerrain hm sx sz then none
  else
    let st := buildVerticesF hm sx sz
    let idx := indicesOfF hm sx sz
    if idx = [] then none
    else some ⟨st.positions, accNormalsF hm sx sz, st.uvs, idx⟩

/-
The boundary tracer `generate_border` (generation.rs lines 279-514).  It is
called by `generate_terrain_mesh` (line 248) but returns nothing and writes to
no buffer (it only logs), so it is modelled as a standalone pass.  Its two
loops are embedded with explicit budgets: the inner trace loop carries the
source's own `max_iterations = border_pixels.len() * 2` budget (line 378), and
the outer loop carries a fuel that the termination theorem shows sufficient.
-/

/-- `DIRECTIONS` (generation.rs line 279): the four edge-adjacent offsets. -/
def DIRECTIONS : List (ℤ × ℤ) := [(1, 0), (0, 1), (-1, 0), (0, -1)]

/-- `MOORE_DIRECTIONS` (generation.rs lines 281-290): the eight neighbor
offsets in clockwise order. -/
def MOORE_DIRECTIONS : List (ℤ × ℤ) :=
  [(1, 0), (1, 1), (0, 1), (-1, 1), (-1, 0), (-1, -1), (0, -1), (1, -1)]

/-- Whether pixel `(x, z)` has a void or out-of-raster 4-neighbor; this is the
`is_border` computation of generation.rs lines 315-334 and, verbatim again, the
`is_boundary` computation of lines 444-459. -/
def hasVoid4Neighbor (hm : Heightmap) (x z : Nat) : Bool :=
  DIRECTIONS.any fun d =>
    let nx := (x : ℤ) + d.1
    let nz := (z : ℤ) + d.2
    if 0 ≤ nx ∧ nx < (hm.width : ℤ) ∧ 0 ≤ nz ∧ nz < (hm.height : ℤ) then
      hm.pix nx.toNat nz.toNat == VOID_HEIGHT
    else
      true

/-- Step 1 of the tracer (generation.rs lines 302-341): all border pixels of
the window, row-major; pixels outside the raster are skipped (line 308). -/
def borderPixelsOf (hm : Heightmap) (sxa sza exa eza : Nat) : List (Nat × Nat) :=
  (List.range (eza - sza)).flatMap fun dz =>
    (List.range (exa - sxa)).filterMap fun dx =>
      let x := sxa + dx
      let z := sza + dz
      if x < hm.width ∧ z < hm.height ∧ hm.pix x z ≠ VOID_HEIGHT ∧
          hasVoid4Neighbor hm x z = true then
        some (x, z)
      else none

/-- The void 4-neighbors recorded for a contour pixel (generation.rs
lines 392-408). -/
def voidNeighborsOf (hm : Heightmap) (p : Nat × Nat) : List (Nat × Nat) :=
  DIRECTIONS.filterMap fun d =>
    let nx := (p.1 : ℤ) + d.1
    let nz := (p.2 : ℤ) + d.2
    if 0 ≤ nx ∧ nx < (hm.width : ℤ) ∧ 0 ≤ nz ∧ nz < (hm.height : ℤ) ∧
        hm.pix nx.toNat nz.toNat = VOID_HEIGHT then
      some (nx.toNat, nz.toNat)
    else none

/-- The Moore-neighbor search for the next contour pixel (generation.rs
lines 419-469): try the eight directions clockwise starting from
`(prev_direction + 6) % 8`, requiring the candidate to be inside the tracing
window and the raster, non-void, and itself a border pixel.  Returns the pixel
and the direction index that reached it. -/
def findNext (hm : Heightmap) (sxa sza exa eza : Nat) (cur : Nat × Nat)
    (prevDir : Nat) : Option ((Nat × Nat) × Nat) :=
  (List.range 8).findSome? fun i =>
    let dirIdx := (prevDir + 6 + i) % 8
    let d := MOORE_DIRECTIONS.getD dirIdx (0, 0)
    let nx := (cur.1 : ℤ) + d.1
    let nz := (cur.2 : ℤ) + d.2
    if (sxa : ℤ) ≤ nx ∧ nx < (exa : ℤ) ∧ (sza : ℤ) ≤ nz ∧ nz < (eza : ℤ) ∧
        0 ≤ nx ∧ nx < (hm.width : ℤ) ∧ 0 ≤ nz ∧ nz < (hm.height : ℤ) then
      if hm.pix nx.toNat nz.toNat ≠ VOID_HEIGHT ∧
          hasVoid4Neighbor hm nx.toNat nz.toNat = true then
        some ((nx.toNat, nz.toNat), dirIdx)
      else none
    else none

/-- Result of one contour trace: the collected `boundary` (pixel plus its void
neighbors), the enlarged `processed` set, and the number of loop iterations
entered. -/
structure TraceResult where
  boundary : List ((Nat × Nat) × List (Nat × Nat))
  processed : List (Nat × Nat)
  steps : Nat
deriving DecidableEq, Repr

/-- The inner trace loop (generation.rs lines 380-486).  The budget argument
is the source's `max_iterations`; the source decrements it and breaks when it
reaches zero before touching the pixel, which is the `b = 0` test in the
successor branch.  `processed` models the `HashSet` by a duplicate-free
insertion list. -/
def traceGo (hm : Heightmap) (sxa sza exa eza : Nat) (startP : Nat × Nat) :
    Nat → (Nat × Nat) → Nat → List ((Nat × Nat) × List (Nat × Nat)) →
    List (Nat × Nat) → TraceResult
  | 0, _, _, bd, pr => ⟨bd, pr, 0⟩
  | b + 1, cur, prevDir, bd, pr =>
    if b = 0 then ⟨bd, pr, 1⟩
    else
      let pr2 := if cur ∈ pr then pr else pr ++ [cur]
      let bd2 := bd ++ [(cur, voidNeighborsOf hm cur)]
      match findNext hm sxa sza exa eza cur prevDir with
      | none => ⟨bd2, pr2, 1⟩
      | some (np, nd) =>
        if 2 < bd2.length ∧ np = startP then ⟨bd2, pr2, 1⟩
        else
          let r := traceGo hm sxa sza exa eza startP b np nd bd2 pr2
          ⟨r.boundary, r.processed, r.steps + 1⟩

/-- The outer loop over contours (generation.rs lines 351-511): pick the first
unprocessed border pixel, trace from it with budget `border_pixels.len() * 2`
and initial direction `0`, count the border, and retain only unprocessed
pixels unless the contour was discarded as noise (`boundary.len() < 3`, whose
`continue` skips the retain).  `none` means the fuel ran out; the termination
theorem shows the fuel passed by `generate_border` never does. -/
def borderLoopGo (hm : Heightmap) (sxa sza exa eza : Nat) :
    Nat → List (Nat × Nat) → List (Nat × Nat) → Nat → Option Nat
  | 0, _, _, _ => none
  | fuel + 1, bps, pr, cnt =>
    if bps = [] then some cnt
    else
      match bps.find? (fun p => decide (p ∉ pr)) with
      | none => some cnt
      | some startP =>
        let r := traceGo hm sxa sza exa eza startP (2 * bps.length) startP 0 [] pr
        if r.boundary.length < 3 then
          borderLoopGo hm sxa sza exa eza fuel bps r.processed (cnt + 1)
        else
          borderLoopGo hm sxa sza exa eza fuel
            (bps.filter fun p => decide (p ∉ r.processed)) r.processed (cnt + 1)

/-- `generate_border` (generation.rs lines 292-514), returning the number of
contours traced (`borders_count`, the only datum the source computes besides
logging).  The fuel `border pixels + 1` is shown sufficient below. -/
def generate_border (hm : Heightmap) (sxa sza exa eza : Nat) : Option Nat :=
  let bps := borderPixelsOf hm sxa sza exa eza
  borderLoopGo hm sxa sza exa eza (bps.length + 1) bps [] 0

/-
The border classifier of border_generator.rs.  Its `make_borders` receives
the four mesh buffers as `&mut Vec` and is the subject of the frame claim;
the buffers are threaded through explicitly as a `MeshBuffer` value.
-/

/-- `Direction` (border_generator.rs lines 5-11). -/
inductive Direction where
  | Left
  | Right
  | Top
  | Bottom
deriving DecidableEq, Repr

/-- `BorderType` (border_generator.rs lines 13-21). -/
inductive BorderType where
  | Corner
  | Line
  | DeadEnd
  | Canyon
  | Pit
  | NoType
deriving DecidableEq, Repr

/-- `RelativeCoord` (border_generator.rs lines 23-26). -/
structure RelativeCoord where
  forward : ℤ
  right : ℤ

/-- Modelled from the spec: `HEIGHT_SCALE` is imported by border_generator.rs
from `terrain_generator.rs`, a module whose file is not among the sources; the
spec fixes the height scale factor at ≈0.3 (the value generation.rs also
uses).  It only feeds the discarded `height` local of `process_line_border`. -/
def HEIGHT_SCALE : ℚ := 3 / 10

/-- `relative_to_absolute` (border_generator.rs lines 132-158): rotate the
forward/right offset into the absolute frame, clamping a negative coordinate
to zero exactly as the source's underflow guard does; the guarded
`(base as i32 + d) as u32` cast is the exact `Int.toNat`. -/
def relative_to_absolute (bx bz : Nat) (d : Direction) (rel : RelativeCoord) :
    Nat × Nat :=
  let dxz : ℤ × ℤ :=
    match d with
    | .Right => (-rel.right, -rel.forward)
    | .Left => (rel.right, rel.forward)
    | .Bottom => (-rel.right, rel.forward)
    | .Top => (rel.right, -rel.forward)
  let absX := if dxz.1 < 0 ∧ (bx : ℤ) < -dxz.1 then 0 else ((bx : ℤ) + dxz.1).toNat
  let absZ := if dxz.2 < 0 ∧ (bz : ℤ) < -dxz.2 then 0 else ((bz : ℤ) + dxz.2).toNat
  (absX, absZ)

/-- `get_relative_pixel` (border_generator.rs lines 113-130); the `nx < 0`
tests on `u32` values are identically false and the debug print for pixel
`(1503, 3433)` has no observable effect, so both are dropped. -/
def get_relative_pixel (hm : Heightmap) (bx bz : Nat) (d : Direction)
    (rel : RelativeCoord) : Option Nat :=
  let nxz := relative_to_absolute bx bz d rel
  if hm.width ≤ nxz.1 ∨ hm.height ≤ nxz.2 then none
  else some (hm.pix nxz.1 nxz.2)

/-- `check_relative_pixel` (border_generator.rs lines 97-111). -/
def check_relative_pixel (hm : Heightmap) (bx bz : Nat) (d : Direction)
    (rel : RelativeCoord) : Bool :=
  match get_relative_pixel hm bx bz d rel with
  | none => false
  | some v => decide (VOID_HEIGHT < v)

/-- `determine_border_type` (border_generator.rs lines 83-95). -/
def determine_border_type (hm : Heightmap) (x z : Nat) (d : Direction) :
    BorderType :=
  let forward := check_relative_pixel hm x z d ⟨1, 0⟩
  let right := check_relative_pixel hm x z d ⟨0, 1⟩
  let left := check_relative_pixel hm x z d ⟨0, -1⟩
  if !forward && right && !left then .Corner
  else if !forward && !right && !left then .Line
  else .NoType

/-- `is_border_pixel` (border_generator.rs lines 160-173).  The source wraps
`(x as i32 + dx) as u32`; a wrapped negative value is `2^32 - 1` and never
passes `nx < width`, which matches the explicit sign test here. -/
def is_border_pixel (hm : Heightmap) (x z : Nat) : Bool :=
  ([( (0 : ℤ), (-1 : ℤ)), (1, 0), (0, 1), (-1, 0)]).any fun d =>
    let nx := (x : ℤ) + d.1
    let nz := (z : ℤ) + d.2
    decide (0 ≤ nx) && decide (nx < (hm.width : ℤ)) &&
    decide (0 ≤ nz) && decide (nz < (hm.height : ℤ)) &&
    (hm.pix nx.toNat nz.toNat == VOID_HEIGHT)

/-- `process_line_border` (border_generator.rs lines 175-188): computes a
height it never uses, prints, and leaves all four buffers untouched. -/
def process_line_border (hm : Heightmap) (x z : Nat) (_d : Direction)
    (st : MeshBuffer) : MeshBuffer :=
  let _height : ℚ := (hm.pix x z : ℚ) * HEIGHT_SCALE
  st

/-- `process_border` (border_generator.rs lines 65-81): only the `Line` case
calls a handler; every other border type is merely printed. -/
def process_border (hm : Heightmap) (x z : Nat) (d : Direction)
    (st : MeshBuffer) : MeshBuffer :=
  match determine_border_type hm x z d with
  | .Line => process_line_border hm x z d st
  | _ => st

/-- `make_borders` (border_generator.rs lines 28-63): scan the chunk window
clamped to the raster; for every non-void border pixel, hand each void
4-neighbor to `process_border` with the matching direction. -/
def make_borders (sx sz csize : Nat) (hm : Heightmap) (st : MeshBuffer) :
    MeshBuffer :=
  let ex := min (sx + csize) hm.width
  let ez := min (sz + csize) hm.height
  ((List.range (ez - sz)).flatMap fun dz =>
      (List.range (ex - sx)).map fun dx => (sx + dx, sz + dz)).foldl
    (fun st p =>
      let x := p.1
      let z := p.2
      if hm.pix x z = VOID_HEIGHT then st
      else if is_border_pixel hm x z then
        let st1 := if 0 < x ∧ hm.pix (x - 1) z = VOID_HEIGHT then
          process_border hm (x - 1) z .Left st else st
        let st2 := if x + 1 < hm.width ∧ hm.pix (x + 1) z = VOID_HEIGHT then
          process_border hm (x + 1) z .Right st1 else st1
        let st3 := if 0 < z ∧ hm.pix x (z - 1) = VOID_HEIGHT then
          process_border hm x (z - 1) .Top st2 else st2
        if z + 1 < hm.height ∧ hm.pix x (z + 1) = VOID_HEIGHT then
          process_border hm x (z + 1) .Bottom st3 else st3
      else st)
    st

/-
Concrete rasters used to instantiate the theorems.
-/

/-- A 2 by 2 raster of uniform elevation 100. -/
def hm2 : Heightmap := ⟨2, 2, fun _ _ => 100⟩

/-- A 130 by 2 raster that is void except for the samples
`(126, 0) = 200`, `(127, 0) = 60` and `(128, 0) = 60`, straddling the seam
between the chunks at origins `(0, 0)` and `(128, 0)`. -/
def hmC3 : Heightmap :=
  ⟨130, 2, fun x z =>
    if z = 0 then
      if x = 126 then 200 else if x = 127 then 60 else if x = 128 then 60 else 0
    else 0⟩

/-- A 3 by 3 raster of uniform elevation 5 (every pixel is a border pixel). -/
def hm3 : Heightmap := ⟨3, 3, fun _ _ => 5⟩

/-- The mesh generated for `hm2` at origin `(0, 0)`. -/
def meshOfHm2 : MeshBuffer := (generate_terrain_mesh hm2 0 0).getD ⟨[], [], [], []⟩

/-
Infrastructure lemmas.  The `Rat` arithmetic operations are restored to
semireducible so that fully concrete goals can be settled by `decide`.
-/

set_option allowUnsafeReducibility true
attribute [local semireducible] Rat.add Rat.mul Rat.inv Rat.neg Rat.sub Rat.div

set_option maxRecDepth 1000000

lemma mem_grid {a b nx nz : Nat} {p : Nat × Nat} :
    (p ∈ (List.range nz).flatMap
        fun dz => (List.range nx).map fun dx => (a + dx, b + dz)) ↔
      a ≤ p.1 ∧ p.1 < a + nx ∧ b ≤ p.2 ∧ p.2 < b + nz := by
  obtain ⟨px, pz⟩ := p
  simp only [List.mem_flatMap, List.mem_map, List.mem_range, Prod.mk.injEq]
  constructor
  · rintro ⟨dz, hdz, dx, hdx, rfl, rfl⟩
    omega
  · rintro ⟨h1, h2, h3, h4⟩
    exact ⟨pz - b, by omega, px - a, by omega, by omega, by omega⟩

lemma nodup_grid {a b nx nz : Nat} :
    ((List.range nz).flatMap
        fun dz => (List.range nx).map fun dx => (a + dx, b + dz)).Nodup := by
  induction nz with
  | zero => simp
  | succ n ih =>
    rw [List.range_succ, List.flatMap_append]
    refine ih.append ?_ ?_
    · simp only [List.flatMap_cons, List.flatMap_nil, List.append_nil]
      exact (List.nodup_range nx).map fun d1 d2 h => by
        simpa using congrArg Prod.fst h
    · intro q hq hq'
      simp only [List.flatMap_cons, List.flatMap_nil, List.append_nil,
        List.mem_map, List.mem_range] at hq'
      have hz := (mem_grid.mp hq).2.2.2
      obtain ⟨dx, _, rfl⟩ := hq'
      omega

lemma mem_cellList {hm : Heightmap} {sx sz x z : Nat} :
    (x, z) ∈ cellList hm sx sz ↔
      expanded_start_x sx ≤ x ∧ x < expanded_end_x hm sx ∧
      expanded_start_z sz ≤ z ∧ z < expanded_end_z hm sz := by
  unfold cellList
  rw [mem_grid]
  omega

lemma mem_latticePoints {hm : Heightmap} {sx sz x z : Nat} :
    (x, z) ∈ latticePoints hm sx sz ↔
      expanded_start_x sx ≤ x ∧ x ≤ expanded_end_x hm sx ∧
      expanded_start_z sz ≤ z ∧ z ≤ expanded_end_z hm sz := by
  unfold latticePoints
  rw [mem_grid]
  omega

lemma nodup_latticePoints {hm : Heightmap} {sx sz : Nat} :
    (latticePoints hm sx sz).Nodup := nodup_grid

lemma vlookup_isSome_iff {m : List ((Nat × Nat) × Nat)} {k : Nat × Nat} :
    (vlookup m k).isSome = true ↔ k ∈ m.map (·.1) := by
  induction m with
  | nil => simp [vlookup]
  | cons e m ih =>
    by_cases h : e.1 = k
    · simp [vlookup, List.find?_cons, h]
    · simpa [vlookup, List.find?_cons, h, Ne.symm h] using ih

lemma vlookup_eq_some {m : List ((Nat × Nat) × Nat)} {k : Nat × Nat} {i : Nat}
    (h : vlookup m k = some i) : (k, i) ∈ m := by
  induction m with
  | nil => simp [vlookup] at h
  | cons e m ih =>
    by_cases he : e.1 = k
    · unfold vlookup at h
      rw [List.find?_cons_of_pos _ (by simp [he])] at h
      obtain ⟨e1, e2⟩ := e
      simp only [Option.map_some'] at h
      simp_all
    · unfold vlookup at h
      rw [List.find?_cons_of_neg _ (by simp [he])] at h
      exact List.mem_cons_of_mem _ (ih h)

lemma vlookup_cons_of_pos {e : (Nat × Nat) × Nat} {m : List ((Nat × Nat) × Nat)}
    {k : Nat × Nat} (he : e.1 = k) : vlookup (e :: m) k = some e.2 := by
  unfold vlookup
  rw [List.find?_cons_of_pos _ (by simp [he])]
  rfl

lemma vlookup_cons_of_neg {e : (Nat × Nat) × Nat} {m : List ((Nat × Nat) × Nat)}
    {k : Nat × Nat} (he : ¬ e.1 = k) : vlookup (e :: m) k = vlookup m k := by
  unfold vlookup
  rw [List.find?_cons_of_neg _ (by simp [he])]

lemma vlookup_append_single {m : List ((Nat × Nat) × Nat)} {p : Nat × Nat} {i : Nat}
    (hfresh : vlookup m p = none) (k : Nat × Nat) :
    vlookup (m ++ [(p, i)]) k = if k = p then some i else vlookup m k := by
  induction m with
  | nil =>
    by_cases h : k = p
    · subst h
      simp [vlookup_cons_of_pos rfl]
    · rw [List.nil_append, vlookup_cons_of_neg (by simpa using Ne.symm h)]
      simp [h, vlookup]
  | cons e m ih =>
    have he : e.1 ≠ p := by
      intro hep
      rw [vlookup_cons_of_pos hep] at hfresh
      exact Option.some_ne_none _ hfresh
    have hfresh' : vlookup m p = none := by
      rwa [vlookup_cons_of_neg he] at hfresh
    by_cases hek : e.1 = k
    · have hkp : ¬ k = p := fun hkp => he (hkp ▸ hek)
      rw [List.cons_append, vlookup_cons_of_pos hek, vlookup_cons_of_pos hek,
        if_neg hkp]
    · rw [List.cons_append, vlookup_cons_of_neg hek, vlookup_cons_of_neg hek]
      exact ih hfresh'

lemma vfold_spec (hm : Heightmap) (sx sz : Nat) :
    ∀ (l : List (Nat × Nat)) (st : VState),
      st.normals.length = st.positions.length →
      st.uvs.length = st.positions.length →
      (∀ e ∈ st.vmap, e.2 < st.positions.length ∧
          st.positions.getD e.2 ⟨0, 0, 0⟩ = vertexPos hm sx sz e.1.1 e.1.2) →
      (l.foldl (vertexStep hm sx sz) st).normals.length
          = (l.foldl (vertexStep hm sx sz) st).positions.length ∧
      (l.foldl (vertexStep hm sx sz) st).uvs.length
          = (l.foldl (vertexStep hm sx sz) st).positions.length ∧
      (∀ e ∈ (l.foldl (vertexStep hm sx sz) st).vmap,
          e.2 < (l.foldl (vertexStep hm sx sz) st).positions.length ∧
          (l.foldl (vertexStep hm sx sz) st).positions.getD e.2 ⟨0, 0, 0⟩
            = vertexPos hm sx sz e.1.1 e.1.2) ∧
      (l.foldl (vertexStep hm sx sz) st).vmap.map (·.1)
          = st.vmap.map (·.1) ++ l.filter fun p => isNeeded hm sx sz p.1 p.2 := by
  intro l
  induction l with
  | nil => intro st h1 h2 h3; exact ⟨h1, h2, h3, by simp⟩
  | cons p l ih =>
    intro st h1 h2 h3
    by_cases hp : isNeeded hm sx sz p.1 p.2
    · have hstep : vertexStep hm sx sz st p =
          { positions := st.positions ++ [vertexPos hm sx sz p.1 p.2]
            normals := st.normals ++ [⟨0, 1, 0⟩]
            uvs := st.uvs ++ [vertexUV hm sx sz p.1 p.2]
            vmap := st.vmap ++ [((p.1, p.2), st.positions.length)] } := by
        simp [vertexStep, hp]
      have hmain := ih (vertexStep hm sx sz st p)
        (by simp [hstep, h1]) (by simp [hstep, h2])
        (by
          rw [hstep]
          rintro e he
          simp only [List.mem_append, List.mem_singleton] at he
          rcases he with he | he
          · obtain ⟨hlt, hget⟩ := h3 e he
            refine ⟨by simpa using Nat.lt_succ_of_lt hlt, ?_⟩
            rw [List.getD_append _ _ _ _ hlt]
            exact hget
          · subst he
            refine ⟨by simp, ?_⟩
            simp [List.getD, List.getElem?_append_right])
      refine ⟨hmain.1, hmain.2.1, hmain.2.2.1, ?_⟩
      rw [List.foldl_cons, hmain.2.2.2, hstep]
      simp [List.filter_cons, hp]
    · have hstep : vertexStep hm sx sz st p = st := by
        simp [vertexStep, hp]
      have hmain := ih st h1 h2 h3
      refine ⟨by simpa [hstep] using hmain.1, by simpa [hstep] using hmain.2.1,
        by simpa [hstep] using hmain.2.2.1, ?_⟩
      rw [List.foldl_cons, hstep, hmain.2.2.2]
      simp [List.filter_cons, hp]

lemma buildVertices_spec (hm : Heightmap) (sx sz : Nat) :
    (buildVertices hm sx sz).normals.length = (buildVertices hm sx sz).positions.length ∧
    (buildVertices hm sx sz).uvs.length = (buildVertices hm sx sz).positions.length ∧
    (∀ e ∈ (buildVertices hm sx sz).vmap,
        e.2 < (buildVertices hm sx sz).positions.length ∧
        (buildVertices hm sx sz).positions.getD e.2 ⟨0, 0, 0⟩
          = vertexPos hm sx sz e.1.1 e.1.2) ∧
    (buildVertices hm sx sz).vmap.map (·.1)
        = (latticePoints hm sx sz).filter fun p => isNeeded hm sx sz p.1 p.2 := by
  have h := vfold_spec hm sx sz (latticePoints hm sx sz) ⟨[], [], [], []⟩
    (by simp) (by simp) (by simp)
  simpa [buildVertices] using h

lemma vlookup_lt_positions {hm : Heightmap} {sx sz : Nat} {k : Nat × Nat} {i : Nat}
    (h : vlookup (buildVertices hm sx sz).vmap k = some i) :
    i < (buildVertices hm sx sz).positions.length ∧
    (buildVertices hm sx sz).positions.getD i ⟨0, 0, 0⟩ = vertexPos hm sx sz k.1 k.2 := by
  have hmem := vlookup_eq_some h
  exact (buildVertices_spec hm sx sz).2.2.1 (k, i) hmem

lemma vlookup_corner_isSome {hm : Heightmap} {sx sz x z : Nat}
    (hx1 : expanded_start_x sx ≤ x) (hx2 : x ≤ expanded_end_x hm sx)
    (hz1 : expanded_start_z sz ≤ z) (hz2 : z ≤ expanded_end_z hm sz)
    (hneed : isNeeded hm sx sz x z = true) :
    (vlookup (buildVertices hm sx sz).vmap (x, z)).isSome = true := by
  rw [vlookup_isSome_iff, (buildVertices_spec hm sx sz).2.2.2, List.mem_filter]
  exact ⟨mem_latticePoints.mpr ⟨hx1, hx2, hz1, hz2⟩, hneed⟩

lemma corners_present {hm : Heightmap} {sx sz x z : Nat}
    (hmem : (x, z) ∈ cellList hm sx sz) (hxw : x < hm.width) (hzh : z < hm.height)
    (hnv : hm.pix x z ≠ VOID_HEIGHT) :
    (vlookup (buildVertices hm sx sz).vmap (x, z)).isSome = true ∧
    (vlookup (buildVertices hm sx sz).vmap (x + 1, z)).isSome = true ∧
    (vlookup (buildVertices hm sx sz).vmap (x + 1, z + 1)).isSome = true ∧
    (vlookup (buildVertices hm sx sz).vmap (x, z + 1)).isSome = true := by
  obtain ⟨hx1, hx2, hz1, hz2⟩ := mem_cellList.mp hmem
  refine ⟨?_, ?_, ?_, ?_⟩
  · refine vlookup_corner_isSome hx1 (by omega) hz1 (by omega) ?_
    have : adjBR hm sx sz x z = true := by
      simp only [adjBR, Bool.and_eq_true, decide_eq_true_eq, bne_iff_ne, ne_eq]
      exact ⟨⟨⟨⟨hx2, hz2⟩, hxw⟩, hzh⟩, hnv⟩
    simp [isNeeded, this]
  · refine vlookup_corner_isSome (by omega) (by omega) hz1 (by omega) ?_
    have : adjBL hm sx sz (x + 1) z = true := by
      simp only [adjBL, Bool.and_eq_true, decide_eq_true_eq, bne_iff_ne, ne_eq,
        Nat.add_sub_cancel]
      exact ⟨⟨⟨⟨by omega, hz2⟩, hxw⟩, hzh⟩, hnv⟩
    simp [isNeeded, this]
  · refine vlookup_corner_isSome (by omega) (by omega) (by omega) (by omega) ?_
    have : adjTL hm sx sz (x + 1) (z + 1) = true := by
      simp only [adjTL, Bool.and_eq_true, decide_eq_true_eq, bne_iff_ne, ne_eq,
        Nat.add_sub_cancel]
      exact ⟨⟨⟨⟨by omega, by omega⟩, hxw⟩, hzh⟩, hnv⟩
    simp [isNeeded, this]
  · refine vlookup_corner_isSome hx1 (by omega) (by omega) (by omega) ?_
    have : adjTR hm sx sz x (z + 1) = true := by
      simp only [adjTR, Bool.and_eq_true, decide_eq_true_eq, bne_iff_ne, ne_eq,
        Nat.add_sub_cancel]
      exact ⟨⟨⟨⟨hx2, by omega⟩, hxw⟩, hzh⟩, hnv⟩
    simp [isNeeded, this]

lemma cellTris_eq_of_corners {hm : Heightmap} {sx sz x z : Nat}
    (hmem : (x, z) ∈ cellList hm sx sz) (hxw : x < hm.width) (hzh : z < hm.height)
    (hnv : hm.pix x z ≠ VOID_HEIGHT) :
    ∃ itl itr ibr ibl,
      vlookup (buildVertices hm sx sz).vmap (x, z) = some itl ∧
      vlookup (buildVertices hm sx sz).vmap (x + 1, z) = some itr ∧
      vlookup (buildVertices hm sx sz).vmap (x + 1, z + 1) = some ibr ∧
      vlookup (buildVertices hm sx sz).vmap (x, z + 1) = some ibl ∧
      cellTris hm (buildVertices hm sx sz).vmap (x, z)
        = [itr, itl, ibr, itl, ibl, ibr] := by
  obtain ⟨h1, h2, h3, h4⟩ := corners_present hmem hxw hzh hnv
  obtain ⟨itl, htl⟩ := Option.isSome_iff_exists.mp h1
  obtain ⟨itr, htr⟩ := Option.isSome_iff_exists.mp h2
  obtain ⟨ibr, hbr⟩ := Option.isSome_iff_exists.mp h3
  obtain ⟨ibl, hbl⟩ := Option.isSome_iff_exists.mp h4
  refine ⟨itl, itr, ibr, ibl, htl, htr, hbr, hbl, ?_⟩
  unfold cellTris
  rw [if_pos (by simp [hxw, hzh, hnv])]
  rw [htl, htr, hbr, hbl]

lemma cellTris_length {hm : Heightmap} {vm : List ((Nat × Nat) × Nat)}
    {c : Nat × Nat} : (cellTris hm vm c).length = 0 ∨ (cellTris hm vm c).length = 6 := by
  unfold cellTris
  split
  · split <;> simp
  · simp

lemma mem_cellTris_lookup {hm : Heightmap} {vm : List ((Nat × Nat) × Nat)}
    {c : Nat × Nat} {i : Nat} (h : i ∈ cellTris hm vm c) :
    ∃ k, vlookup vm k = some i := by
  unfold cellTris at h
  split at h
  · split at h
    case _ tl tr br bl htl htr hbr hbl =>
      simp only [List.mem_cons, List.not_mem_nil, or_false] at h
      rcases h with rfl | rfl | rfl | rfl | rfl | rfl
      exacts [⟨_, htr⟩, ⟨_, htl⟩, ⟨_, hbr⟩, ⟨_, htl⟩, ⟨_, hbl⟩, ⟨_, hbr⟩]
    case _ => simp at h
  · simp at h

lemma chunk3_append : ∀ (a b : List Nat), a.length % 3 = 0 →
    chunk3 (a ++ b) = chunk3 a ++ chunk3 b
  | [], b, _ => by simp [chunk3]
  | [i0], _, h => by simp at h
  | [i0, i1], _, h => by simp at h
  | i0 :: i1 :: i2 :: rest, b, h => by
    simp only [List.cons_append, chunk3, List.append_eq]
    rw [chunk3_append rest b (by simp only [List.length_cons] at h; omega)]

lemma length_flatMap_mod3 {α : Type} {l : List α} {f : α → List Nat}
    (h : ∀ c ∈ l, (f c).length % 3 = 0) : (l.flatMap f).length % 3 = 0 := by
  induction l with
  | nil => simp
  | cons c l ih =>
    rw [List.flatMap_cons, List.length_append]
    have h1 := h c (List.mem_cons_self c l)
    have h2 := ih fun d hd => h d (List.mem_cons_of_mem _ hd)
    omega

lemma chunk3_flatMap {α : Type} {l : List α} {f : α → List Nat}
    (h : ∀ c ∈ l, (f c).length % 3 = 0) :
    chunk3 (l.flatMap f) = l.flatMap fun c => chunk3 (f c) := by
  induction l with
  | nil => simp [chunk3]
  | cons c l ih =>
    rw [List.flatMap_cons, List.flatMap_cons,
      chunk3_append _ _ (h c (List.mem_cons_self c l)),
      ih fun d hd => h d (List.mem_cons_of_mem _ hd)]

lemma addNormalAt_length {ns : List Vec3} {i : Nat} {v : Vec3} :
    (addNormalAt ns i v).length = ns.length := by
  simp [addNormalAt]

lemma accumulateNormals_length {ps : List Vec3} :
    ∀ (tris : List (Nat × Nat × Nat)) (ns : List Vec3),
      (accumulateNormals ps ns tris).length = ns.length := by
  intro tris
  induction tris with
  | nil => intro ns; rfl
  | cons t tris ih =>
    intro ns
    unfold accumulateNormals at *
    rw [List.foldl_cons, ih]
    simp [addNormalAt_length]

lemma mem_indicesOf {hm : Heightmap} {sx sz i : Nat} (h : i ∈ indicesOf hm sx sz) :
    ∃ k, vlookup (buildVertices hm sx sz).vmap k = some i := by
  unfold indicesOf at h
  rw [List.mem_flatMap] at h
  obtain ⟨c, _, hi⟩ := h
  split at hi
  · exact mem_cellTris_lookup hi
  · simp at hi

lemma indicesOf_mod3 {hm : Heightmap} {sx sz : Nat} :
    (indicesOf hm sx sz).length % 3 = 0 := by
  unfold indicesOf
  refine length_flatMap_mod3 fun c _ => ?_
  split
  · rcases @cellTris_length hm (buildVertices hm sx sz).vmap c
      with h | h <;> simp [h]
  · simp

lemma generate_eq_some {hm : Heightmap} {sx sz : Nat} {m : MeshBuffer}
    (h : generate_terrain_mesh hm sx sz = some m) :
    m = ⟨(buildVertices hm sx sz).positions, accNormals hm sx sz,
          (buildVertices hm sx sz).uvs, indicesOf hm sx sz⟩ := by
  unfold generate_terrain_mesh at h
  split at h
  · simp at h
  · split at h
    · simp at h
    · dsimp only at h
      split at h
      · simp at h
      · exact (Option.some_inj.mp h).symm

/-- Claim C1: for a cell of the expanded window whose originating raster
sample is in bounds and non-void, if exactly 3 of its 4 corner vertices were
present in the lookup the triangulator would emit one triangle over them —
proved together with the fact that such a cell always has all four corners
present, so the three-corner antecedent can never hold: the source (which
only ever triangulates full cells, lines 159-164) is never exercised on a
three-corner cell. -/
theorem c1_three_corner_cells (hm : Heightmap) (sx sz x z : Nat)
    (hmem : (x, z) ∈ cellList hm sx sz) (hxw : x < hm.width) (hzh : z < hm.height)
    (hnv : hm.pix x z ≠ VOID_HEIGHT) :
    (presentCorners hm sx sz (x, z) = 3 →
      (cellTris hm (buildVertices hm sx sz).vmap (x, z)).length = 3) ∧
    presentCorners hm sx sz (x, z) = 4 := by
  have hc := corners_present hmem hxw hzh hnv
  have h4 : presentCorners hm sx sz (x, z) = 4 := by
    simp [presentCorners, List.countP_cons, hc.1, hc.2.1, hc.2.2.1, hc.2.2.2]
  exact ⟨fun h3 => absurd h4 (by omega), h4⟩

/-- Witness for C1 at the uniform 2 by 2 raster, chunk `(0, 0)`, cell
`(0, 0)`. -/
theorem c1_witness :
    ((0, 0) ∈ cellList hm2 0 0 ∧ 0 < hm2.width ∧ 0 < hm2.height ∧
        hm2.pix 0 0 ≠ VOID_HEIGHT) ∧
    ((presentCorners hm2 0 0 (0, 0) = 3 →
        (cellTris hm2 (buildVertices hm2 0 0).vmap (0, 0)).length = 3) ∧
      presentCorners hm2 0 0 (0, 0) = 4) :=
  ⟨by decide, c1_three_corner_cells hm2 0 0 0 0 (by decide) (by decide) (by decide)
    (by decide)⟩

/-- Claim C4 counterexample: on the uniform 2 by 2 raster, cell `(0, 0)` has
corner indices `top-left = 0`, `top-right = 1`, `bottom-left = 3`,
`bottom-right = 4`, and the triangulator emits `[1, 0, 4, 0, 3, 4]`, i.e.
`(top-right, top-left, bottom-right)` and `(top-left, bottom-left,
bottom-right)` — not the claimed `(top-left, bottom-left, top-right)` and
`(top-right, bottom-left, bottom-right)`, which would be `[0, 3, 1, 1, 3, 4]`. -/
theorem c4_counterexample :
    vlookup (buildVertices hm2 0 0).vmap (0, 0) = some 0 ∧
    vlookup (buildVertices hm2 0 0).vmap (1, 0) = some 1 ∧
    vlookup (buildVertices hm2 0 0).vmap (0, 1) = some 3 ∧
    vlookup (buildVertices hm2 0 0).vmap (1, 1) = some 4 ∧
    cellTris hm2 (buildVertices hm2 0 0).vmap (0, 0) = [1, 0, 4, 0, 3, 4] ∧
    cellTris hm2 (buildVertices hm2 0 0).vmap (0, 0) ≠ [0, 3, 1, 1, 3, 4] ∧
    (allIndicesOf hm2 0 0).take 6 = cellTris hm2 (buildVertices hm2 0 0).vmap (0, 0) := by
  decide

/-- Claim C4 (amended): a cell with all four corners present (which is every
in-bounds non-void cell) emits exactly the two triangles
`(top-right, top-left, bottom-right)` and
`(top-left, bottom-left, bottom-right)` — the cell is split along the
top-left/bottom-right diagonal — and both triangles' edge-vector cross
products have `y` component `+1`, i.e. the surface is wound facing up. -/
theorem c4_cell_triangulation (hm : Heightmap) (sx sz x z : Nat)
    (hmem : (x, z) ∈ cellList hm sx sz) (hxw : x < hm.width) (hzh : z < hm.height)
    (hnv : hm.pix x z ≠ VOID_HEIGHT) :
    ∃ itl itr ibr ibl,
      vlookup (buildVertices hm sx sz).vmap (x, z) = some itl ∧
      vlookup (buildVertices hm sx sz).vmap (x + 1, z) = some itr ∧
      vlookup (buildVertices hm sx sz).vmap (x + 1, z + 1) = some ibr ∧
      vlookup (buildVertices hm sx sz).vmap (x, z + 1) = some ibl ∧
      cellTris hm (buildVertices hm sx sz).vmap (x, z)
        = [itr, itl, ibr, itl, ibl, ibr] ∧
      (triNormal (buildVertices hm sx sz).positions (itr, itl, ibr)).y = 1 ∧
      (triNormal (buildVertices hm sx sz).positions (itl, ibl, ibr)).y = 1 := by
  obtain ⟨itl, itr, ibr, ibl, htl, htr, hbr, hbl, htris⟩ :=
    cellTris_eq_of_corners hmem hxw hzh hnv
  have ptl := (vlookup_lt_positions htl).2
  have ptr := (vlookup_lt_positions htr).2
  have pbr := (vlookup_lt_positions hbr).2
  have pbl := (vlookup_lt_positions hbl).2
  refine ⟨itl, itr, ibr, ibl, htl, htr, hbr, hbl, htris, ?_, ?_⟩
  · show (triNormal (buildVertices hm sx sz).positions (itr, itl, ibr)).y = 1
    unfold triNormal getPos
    dsimp only
    rw [ptr, ptl, pbr]
    unfold vertexPos
    dsimp only
    push_cast
    ring
  · show (triNormal (buildVertices hm sx sz).positions (itl, ibl, ibr)).y = 1
    unfold triNormal getPos
    dsimp only
    rw [ptl, pbl, pbr]
    unfold vertexPos
    dsimp only
    push_cast
    ring

/-- Witness for the amended C4 at the uniform 2 by 2 raster, cell `(0, 0)`. -/
theorem c4_witness :
    ((0, 0) ∈ cellList hm2 0 0 ∧ 0 < hm2.width ∧ 0 < hm2.height ∧
        hm2.pix 0 0 ≠ VOID_HEIGHT) ∧
    (∃ itl itr ibr ibl,
      vlookup (buildVertices hm2 0 0).vmap (0, 0) = some itl ∧
      vlookup (buildVertices hm2 0 0).vmap (1, 0) = some itr ∧
      vlookup (buildVertices hm2 0 0).vmap (1, 1) = some ibr ∧
      vlookup (buildVertices hm2 0 0).vmap (0, 1) = some ibl ∧
      cellTris hm2 (buildVertices hm2 0 0).vmap (0, 0)
        = [itr, itl, ibr, itl, ibl, ibr] ∧
      (triNormal (buildVertices hm2 0 0).positions (itr, itl, ibr)).y = 1 ∧
      (triNormal (buildVertices hm2 0 0).positions (itl, ibl, ibr)).y = 1) :=
  ⟨by decide, c4_cell_triangulation hm2 0 0 0 0 (by decide) (by decide) (by decide)
    (by decide)⟩

/-- Claim C5: every returned mesh has only in-range indices, an index count
divisible by 3, and position, normal and uv buffers of equal length. -/
theorem c5_buffer_invariants (hm : Heightmap) (sx sz : Nat) (m : MeshBuffer)
    (h : generate_terrain_mesh hm sx sz = some m) :
    (∀ i ∈ m.indices, i < m.positions.length) ∧
    m.indices.length % 3 = 0 ∧
    m.normals.length = m.positions.length ∧
    m.uvs.length = m.positions.length := by
  obtain rfl := generate_eq_some h
  refine ⟨?_, indicesOf_mod3, ?_, (buildVertices_spec hm sx sz).2.1⟩
  · intro i hi
    obtain ⟨k, hk⟩ := mem_indicesOf hi
    exact (vlookup_lt_positions hk).1
  · show (accNormals hm sx sz).length = (buildVertices hm sx sz).positions.length
    unfold accNormals
    dsimp only
    rw [accumulateNormals_length, List.length_map]
    exact (buildVertices_spec hm sx sz).1

/-- Witness for C5 at the uniform 2 by 2 raster, chunk `(0, 0)`. -/
theorem c5_witness :
    generate_terrain_mesh hm2 0 0 = some meshOfHm2 ∧
    ((∀ i ∈ meshOfHm2.indices, i < meshOfHm2.positions.length) ∧
      meshOfHm2.indices.length % 3 = 0 ∧
      meshOfHm2.normals.length = meshOfHm2.positions.length ∧
      meshOfHm2.uvs.length = meshOfHm2.positions.length) :=
  ⟨by decide, c5_buffer_invariants hm2 0 0 meshOfHm2 (by decide)⟩

lemma mem_finalTriangleCells {hm : Heightmap} {sx sz : Nat}
    {e : (Nat × Nat) × (Nat × Nat × Nat)} (h : e ∈ finalTriangleCells hm sx sz) :
    inChunk sx sz e.1 = true := by
  unfold finalTriangleCells at h
  rw [List.mem_flatMap] at h
  obtain ⟨c, _, he⟩ := h
  split at he
  · rw [List.mem_map] at he
    obtain ⟨t, _, rfl⟩ := he
    assumption
  · simp at he

lemma inChunk_bounds {sx sz : Nat} {c : Nat × Nat} (h : inChunk sx sz c = true) :
    sx ≤ c.1 ∧ c.1 < sx + chunk_size ∧ sz ≤ c.2 ∧ c.2 < sz + chunk_size := by
  simpa [inChunk, and_assoc] using h

/-- Claim C6: every triangle of the final output index buffer originates from
a cell of the original (non-expanded) chunk window — `chunk3 (indicesOf)` is
exactly the cell-tagged triangle list projected to triangles — and the final
triangle cells of two adjacent chunk builds are disjoint, so no raster cell
is covered by triangles of both chunks. -/
theorem c6_chunk_restriction (hm : Heightmap) (sx sz sx2 sz2 : Nat)
    (hadj : (sx2 = sx + chunk_size ∧ sz2 = sz) ∨ (sx2 = sx ∧ sz2 = sz + chunk_size)) :
    (∀ e ∈ finalTriangleCells hm sx sz,
        sx ≤ e.1.1 ∧ e.1.1 < sx + chunk_size ∧ sz ≤ e.1.2 ∧ e.1.2 < sz + chunk_size) ∧
    chunk3 (indicesOf hm sx sz) = (finalTriangleCells hm sx sz).map (·.2) ∧
    (∀ e ∈ finalTriangleCells hm sx sz, ∀ e2 ∈ finalTriangleCells hm sx2 sz2,
        e.1 ≠ e2.1) := by
  refine ⟨fun e he => inChunk_bounds (mem_finalTriangleCells he), ?_, ?_⟩
  · unfold indicesOf finalTriangleCells
    rw [chunk3_flatMap (by
      intro c _
      split
      · rcases @cellTris_length hm (buildVertices hm sx sz).vmap c
          with h | h <;> simp [h]
      · simp)]
    rw [List.map_flatMap]
    refine congrArg _ (funext fun c => ?_)
    split
    · rw [List.map_map]
      simp
    · simp [chunk3]
  · intro e he e2 he2 heq
    have h1 := inChunk_bounds (mem_finalTriangleCells he)
    have h2 := inChunk_bounds (mem_finalTriangleCells he2)
    rw [heq] at h1
    rcases hadj with ⟨rfl, rfl⟩ | ⟨rfl, rfl⟩ <;> omega

/-- Witness for C6: the adjacency hypothesis discharged at origins `(0, 0)`
and `(128, 0)` of the uniform 2 by 2 raster, with the cell-bound part applied
to a concrete member of the final triangle list. -/
theorem c6_witness :
    ((0 : Nat) ≤ 0 ∧ (0 : Nat) < 0 + chunk_size ∧ (0 : Nat) ≤ 0 ∧
        (0 : Nat) < 0 + chunk_size) ∧
    chunk3 (indicesOf hm2 0 0) = (finalTriangleCells hm2 0 0).map (·.2) :=
  ⟨(c6_chunk_restriction hm2 0 0 128 0 (Or.inl ⟨rfl, rfl⟩)).1 ((0, 0), (1, 0, 4))
      (by decide),
    (c6_chunk_restriction hm2 0 0 128 0 (Or.inl ⟨rfl, rfl⟩)).2.1⟩

lemma hasTerrain_iff {hm : Heightmap} {sx sz : Nat} :
    hasTerrain hm sx sz = true ↔
      ∃ x z, sx ≤ x ∧ x < sx + chunk_size ∧ x < hm.width ∧
        sz ≤ z ∧ z < sz + chunk_size ∧ z < hm.height ∧ hm.pix x z ≠ VOID_HEIGHT := by
  unfold hasTerrain
  simp only [List.any_eq_true, List.mem_range, bne_iff_ne, ne_eq]
  constructor
  · rintro ⟨dz, hdz, dx, hdx, hp⟩
    exact ⟨sx + dx, sz + dz, by omega, by omega, by omega, by omega, by omega,
      by omega, hp⟩
  · rintro ⟨x, z, h1, h2, h3, h4, h5, h6, hp⟩
    refine ⟨z - sz, by omega, x - sx, by omega, ?_⟩
    have hx : sx + (x - sx) = x := by omega
    have hz : sz + (z - sz) = z := by omega
    rw [hx, hz]
    exact hp

lemma hasTerrain_eq_false_iff {hm : Heightmap} {sx sz : Nat} :
    hasTerrain hm sx sz = false ↔
      ∀ x z, sx ≤ x → x < sx + chunk_size → x < hm.width →
        sz ≤ z → z < sz + chunk_size → z < hm.height →
        hm.pix x z = VOID_HEIGHT := by
  rw [← Bool.not_eq_true, hasTerrain_iff]
  push_neg
  constructor
  · intro H x z h1 h2 h3 h4 h5 h6
    exact H x z h1 h2 h3 h4 h5 h6
  · intro H x z h1 h2 h3 h4 h5 h6
    exact H x z h1 h2 h3 h4 h5 h6

/-- Claim C2: `generate_terrain_mesh` returns `None` exactly when the expanded
window is degenerate on some axis, or every in-raster sample of the original
chunk window is void, or the chunk-restricted final index buffer is empty;
and whenever the bounds are not degenerate the chunk origin lies within the
raster (both coordinates at most the raster size), so the `u32` subtractions
`width - start_x` and `height - start_z` of the pre-check loop bounds cannot
underflow — under the claim's proviso that `start + chunk_size + 1` does not
overflow `u32` no arithmetic in the function can fault, and the embedding is
a total function. -/
theorem c2_none_iff (hm : Heightmap) (sx sz : Nat)
    (hox : sx + chunk_size + 1 < 2 ^ 32) (hoz : sz + chunk_size + 1 < 2 ^ 32) :
    (generate_terrain_mesh hm sx sz = none ↔
      (expanded_end_x hm sx ≤ expanded_start_x sx ∨
        expanded_end_z hm sz ≤ expanded_start_z sz) ∨
      (∀ x z, sx ≤ x → x < sx + chunk_size → x < hm.width →
        sz ≤ z → z < sz + chunk_size → z < hm.height →
        hm.pix x z = VOID_HEIGHT) ∨
      indicesOf hm sx sz = []) ∧
    (¬ (expanded_end_x hm sx ≤ expanded_start_x sx ∨
        expanded_end_z hm sz ≤ expanded_start_z sz) →
      sx ≤ hm.width ∧ sz ≤ hm.height) := by
  have hdegiff : degenerateBounds hm sx sz = true ↔
      (expanded_end_x hm sx ≤ expanded_start_x sx ∨
        expanded_end_z hm sz ≤ expanded_start_z sz) := by
    simp [degenerateBounds]
  constructor
  · by_cases hdeg : degenerateBounds hm sx sz = true
    · rw [generate_terrain_mesh, if_pos hdeg]
      simp [hdegiff.mp hdeg]
    · by_cases hvoid : hasTerrain hm sx sz = true
      · rw [generate_terrain_mesh, if_neg hdeg, if_neg (by simp [hvoid])]
        dsimp only
        by_cases hidx : indicesOf hm sx sz = []
        · rw [if_pos hidx]
          simp [hidx]
        · rw [if_neg hidx]
          simp only [reduceCtorEq, false_iff]
          push_neg
          refine ⟨?_, ?_, hidx⟩
          · rw [hdegiff] at hdeg
            push_neg at hdeg
            exact hdeg
          · exact hasTerrain_iff.mp hvoid
      · rw [generate_terrain_mesh, if_neg hdeg,
          if_pos (by simp [Bool.not_eq_true] at hvoid ⊢; exact hvoid)]
        have hall := hasTerrain_eq_false_iff.mp (by simpa using hvoid)
        simp only [true_iff]
        exact Or.inr (Or.inl hall)
  · intro hnd
    rw [← hdegiff] at hnd
    simp only [degenerateBounds, Bool.or_eq_true, decide_eq_true_eq, not_or] at hnd
    unfold expanded_end_x expanded_start_x expanded_end_z expanded_start_z at hnd
    constructor <;> omega

/-- Witness for C2 at the uniform 2 by 2 raster, chunk `(0, 0)`. -/
theorem c2_witness :
    (0 + chunk_size + 1 < 2 ^ 32) ∧
    ((generate_terrain_mesh hm2 0 0 = none ↔
      (expanded_end_x hm2 0 ≤ expanded_start_x 0 ∨
        expanded_end_z hm2 0 ≤ expanded_start_z 0) ∨
      (∀ x z, 0 ≤ x → x < 0 + chunk_size → x < hm2.width →
        0 ≤ z → z < 0 + chunk_size → z < hm2.height →
        hm2.pix x z = VOID_HEIGHT) ∨
      indicesOf hm2 0 0 = []) ∧
    (¬ (expanded_end_x hm2 0 ≤ expanded_start_x 0 ∨
        expanded_end_z hm2 0 ≤ expanded_start_z 0) →
      0 ≤ hm2.width ∧ 0 ≤ hm2.height)) :=
  ⟨by norm_num [chunk_size], c2_none_iff hm2 0 0 (by norm_num [chunk_size])
    (by norm_num [chunk_size])⟩

/-- Claim C3 (code bug): the builds of the two adjacent chunks at origins
`(0, 0)` and `(128, 0)` of `hmC3` disagree on the normal of the shared
lattice point `(128, 0)`.  The first build accumulates `(21, 3, 0)` there,
the second `(0, 3, 0)`, and the finalized (normalized) normals differ far
beyond floating-point tolerance: `(21 / √450, 3 / √450, 0)` versus
`(0, 1, 0)`.  The cause: the neighbor-sample guards `x > expanded_start_x` of
the height computation (generation.rs lines 93-116) clip differently in the
two builds, so the expanded-ring vertex `(127, z)` gets height `39` in one
build and `18` in the other, and the seam vertex inherits the mismatch
through its triangle fan. -/
theorem c3_seam_normal_mismatch :
    accNormalAt hmC3 0 0 (128, 0) = some ⟨21, 3, 0⟩ ∧
    accNormalAt hmC3 128 0 (128, 0) = some ⟨0, 3, 0⟩ ∧
    IsFinalNormal ⟨21, 3, 0⟩ (21 / Real.sqrt 450, 3 / Real.sqrt 450, 0) ∧
    IsFinalNormal ⟨0, 3, 0⟩ (0, 1, 0) ∧
    (21 / Real.sqrt 450, 3 / Real.sqrt 450, (0 : ℝ)) ≠ ((0 : ℝ), 1, 0) := by
  have h450 : ((lengthSq ⟨21, 3, 0⟩ : ℚ) : ℝ) = 450 := by norm_num [lengthSq]
  have h9 : ((lengthSq ⟨0, 3, 0⟩ : ℚ) : ℝ) = 9 := by norm_num [lengthSq]
  have hsq450 : (1 : ℝ) ≤ Real.sqrt 450 := by
    rw [show (1 : ℝ) = Real.sqrt 1 from Real.sqrt_one.symm]
    exact Real.sqrt_le_sqrt (by norm_num)
  have hsq9 : Real.sqrt 9 = 3 := by
    rw [show (9 : ℝ) = 3 ^ 2 by norm_num, Real.sqrt_sq (by norm_num)]
  refine ⟨by decide, by decide, ?_, ?_, ?_⟩
  · simp only [IsFinalNormal, h450]
    left
    refine ⟨by linarith, ?_⟩
    push_cast
    norm_num
  · simp only [IsFinalNormal, h9, hsq9]
    left
    refine ⟨by norm_num, ?_⟩
    push_cast
    norm_num
  · intro h
    rw [Prod.ext_iff] at h
    have hpos : 0 < Real.sqrt 450 := by linarith
    exact absurd h.1 (div_ne_zero (by norm_num) (ne_of_gt hpos))

/-- Claim C7: every finalized normal is either the accumulated vector divided
by its length (a unit vector, squared norm exactly 1) when the length exceeds
the `0.0001` epsilon, or exactly the up vector `(0, 1, 0)` otherwise; in
particular no finalized normal is the zero vector (and over the real-number
embedding no `NaN` exists at all). -/
theorem c7_normal_finalization (hm : Heightmap) (sx sz : Nat) (m : MeshBuffer)
    (hgen : generate_terrain_mesh hm sx sz = some m) (v : Vec3)
    (hv : v ∈ m.normals) (n : ℝ × ℝ × ℝ) (hn : IsFinalNormal v n) :
    n ≠ (0, 0, 0) ∧
    (1 / 10000 < Real.sqrt ((lengthSq v : ℚ) : ℝ) →
      n.1 ^ 2 + n.2.1 ^ 2 + n.2.2 ^ 2 = 1) ∧
    (¬ 1 / 10000 < Real.sqrt ((lengthSq v : ℚ) : ℝ) → n = (0, 1, 0)) := by
  simp only [IsFinalNormal] at hn
  rcases hn with ⟨hL, hn⟩ | ⟨hL, hn⟩
  · have hLpos : 0 < Real.sqrt ((lengthSq v : ℚ) : ℝ) := lt_trans (by norm_num) hL
    have hSpos : (0 : ℝ) < ((lengthSq v : ℚ) : ℝ) := Real.sqrt_pos.mp hLpos
    have hsq : Real.sqrt ((lengthSq v : ℚ) : ℝ) ^ 2 = ((lengthSq v : ℚ) : ℝ) :=
      Real.sq_sqrt (le_of_lt hSpos)
    have hcast : ((v.x : ℚ) : ℝ) ^ 2 + ((v.y : ℚ) : ℝ) ^ 2 + ((v.z : ℚ) : ℝ) ^ 2
        = ((lengthSq v : ℚ) : ℝ) := by
      unfold lengthSq
      push_cast
      ring
    have hunit : n.1 ^ 2 + n.2.1 ^ 2 + n.2.2 ^ 2 = 1 := by
      rw [hn]
      dsimp only
      rw [div_pow, div_pow, div_pow, div_add_div_same, div_add_div_same, hsq,
        hcast, div_self (ne_of_gt hSpos)]
    refine ⟨?_, fun _ => hunit, fun h => absurd hL h⟩
    intro h0
    rw [h0] at hunit
    norm_num at hunit
  · rw [hn]
    refine ⟨?_, fun h => absurd h hL, fun _ => rfl⟩
    intro h
    have h1 : (1 : ℝ) = 0 := congrArg (fun t => t.2.1) h
    norm_num at h1

/-- Witness for C7 at the uniform 2 by 2 raster: the accumulated normal
`(0, 2, 0)` of the first vertex finalizes to `(0, 1, 0)`. -/
theorem c7_witness :
    (generate_terrain_mesh hm2 0 0 = some meshOfHm2 ∧
      (⟨0, 2, 0⟩ : Vec3) ∈ meshOfHm2.normals ∧
      IsFinalNormal ⟨0, 2, 0⟩ ((0 : ℝ), (1 : ℝ), (0 : ℝ))) ∧
    (((0 : ℝ), (1 : ℝ), (0 : ℝ)) ≠ (0, 0, 0) ∧
      (1 / 10000 < Real.sqrt ((lengthSq ⟨0, 2, 0⟩ : ℚ) : ℝ) →
        ((0 : ℝ), (1 : ℝ), (0 : ℝ)).1 ^ 2 + ((0 : ℝ), (1 : ℝ), (0 : ℝ)).2.1 ^ 2 +
          ((0 : ℝ), (1 : ℝ), (0 : ℝ)).2.2 ^ 2 = 1) ∧
      (¬ 1 / 10000 < Real.sqrt ((lengthSq ⟨0, 2, 0⟩ : ℚ) : ℝ) →
        ((0 : ℝ), (1 : ℝ), (0 : ℝ)) = (0, 1, 0))) := by
  have h4 : ((lengthSq ⟨0, 2, 0⟩ : ℚ) : ℝ) = 4 := by norm_num [lengthSq]
  have hsq4 : Real.sqrt 4 = 2 := by
    rw [show (4 : ℝ) = 2 ^ 2 by norm_num, Real.sqrt_sq (by norm_num)]
  have hfin : IsFinalNormal ⟨0, 2, 0⟩ ((0 : ℝ), (1 : ℝ), (0 : ℝ)) := by
    simp only [IsFinalNormal, h4, hsq4]
    left
    refine ⟨by norm_num, ?_⟩
    push_cast
    norm_num
  exact ⟨⟨by decide, by decide, hfin⟩,
    c7_normal_finalization hm2 0 0 meshOfHm2 (by decide) ⟨0, 2, 0⟩ (by decide)
      ((0 : ℝ), (1 : ℝ), (0 : ℝ)) hfin⟩

lemma vfoldF_agree (hm : Heightmap) (sx sz : Nat) :
    ∀ (l : List (Nat × Nat)) (st : VState) (stF : VStateF),
      st.positions = stF.positions → st.normals = stF.normals →
      st.uvs = stF.uvs → (∀ k, vlookup st.vmap k = stF.vmap k) →
      (∀ p ∈ l, vlookup st.vmap p = none) → l.Nodup →
      (l.foldl (vertexStep hm sx sz) st).positions
          = (l.foldl (vertexStepF hm sx sz) stF).positions ∧
      (l.foldl (vertexStep hm sx sz) st).normals
          = (l.foldl (vertexStepF hm sx sz) stF).normals ∧
      (l.foldl (vertexStep hm sx sz) st).uvs
          = (l.foldl (vertexStepF hm sx sz) stF).uvs ∧
      (∀ k, vlookup (l.foldl (vertexStep hm sx sz) st).vmap k
          = (l.foldl (vertexStepF hm sx sz) stF).vmap k) := by
  intro l
  induction l with
  | nil => intro st stF h1 h2 h3 h4 _ _; exact ⟨h1, h2, h3, h4⟩
  | cons p l ih =>
    intro st stF h1 h2 h3 h4 hfresh hnodup
    rw [List.foldl_cons, List.foldl_cons]
    have hfp : vlookup st.vmap p = none := hfresh p (List.mem_cons_self p l)
    by_cases hp : isNeeded hm sx sz p.1 p.2
    · have hstep : vertexStep hm sx sz st p =
          { positions := st.positions ++ [vertexPos hm sx sz p.1 p.2]
            normals := st.normals ++ [⟨0, 1, 0⟩]
            uvs := st.uvs ++ [vertexUV hm sx sz p.1 p.2]
            vmap := st.vmap ++ [((p.1, p.2), st.positions.length)] } := by
        simp [vertexStep, hp]
      have hstepF : vertexStepF hm sx sz stF p =
          { positions := stF.positions ++ [vertexPos hm sx sz p.1 p.2]
            normals := stF.normals ++ [⟨0, 1, 0⟩]
            uvs := stF.uvs ++ [vertexUV hm sx sz p.1 p.2]
            vmap := fun k => if k = (p.1, p.2) then some stF.positions.length
              else stF.vmap k } := by
        simp [vertexStepF, hp]
      refine ih _ _ (by rw [hstep, hstepF]; simp [h1]) (by rw [hstep, hstepF]; simp [h2])
        (by rw [hstep, hstepF]; simp [h3]) ?_ ?_ hnodup.of_cons
      · intro k
        rw [hstep, hstepF]
        dsimp only
        rw [vlookup_append_single (by simpa using hfp) k]
        by_cases hk : k = (p.1, p.2)
        · rw [if_pos hk, if_pos hk, h1]
        · rw [if_neg hk, if_neg hk]
          exact h4 k
      · intro q hq
        rw [hstep]
        dsimp only
        rw [vlookup_append_single (by simpa using hfp) q]
        have hqp : ¬ q = (p.1, p.2) := by
          intro hqe
          have hqe' : q = p := by rw [hqe]
          exact (List.nodup_cons.mp hnodup).1 (hqe' ▸ hq)
        rw [if_neg hqp]
        exact hfresh q (List.mem_cons_of_mem _ hq)
    · have hstep : vertexStep hm sx sz st p = st := by simp [vertexStep, hp]
      have hstepF : vertexStepF hm sx sz stF p = stF := by simp [vertexStepF, hp]
      rw [hstep, hstepF]
      exact ih st stF h1 h2 h3 h4 (fun q hq => hfresh q (List.mem_cons_of_mem _ hq))
        hnodup.of_cons

lemma buildVerticesF_agree (hm : Heightmap) (sx sz : Nat) :
    (buildVertices hm sx sz).positions = (buildVerticesF hm sx sz).positions ∧
    (buildVertices hm sx sz).normals = (buildVerticesF hm sx sz).normals ∧
    (buildVertices hm sx sz).uvs = (buildVerticesF hm sx sz).uvs ∧
    (∀ k, vlookup (buildVertices hm sx sz).vmap k = (buildVerticesF hm sx sz).vmap k) :=
  vfoldF_agree hm sx sz (latticePoints hm sx sz) ⟨[], [], [], []⟩
    ⟨[], [], [], fun _ => none⟩ rfl rfl rfl (fun _ => rfl) (fun _ _ => rfl)
    nodup_latticePoints

/-- Claim C8: `generate_terrain_mesh` is deterministic despite the internal
`HashMap` — the pipeline observes the map only through `insert` and `get`, so
its output is a function of the map's extensional content and cannot depend
on hash seeds or bucket order.  This is made exact by proving the pipeline
equal to a second rendering in which the hash map is replaced by an
extensional function map: any two law-abiding lookup implementations give the
same buffers, hence two runs on the same raster and origin are bit-identical. -/
theorem c8_deterministic_output (hm : Heightmap) (sx sz : Nat) :
    generate_terrain_mesh hm sx sz = generate_terrain_meshF hm sx sz := by
  obtain ⟨hpos, hnorm, huv, hmapeq⟩ := buildVerticesF_agree hm sx sz
  have hcell : ∀ c, cellTris hm (buildVertices hm sx sz).vmap c
      = cellTrisF hm (buildVerticesF hm sx sz).vmap c := by
    intro c
    unfold cellTris cellTrisF
    rw [← hmapeq, ← hmapeq, ← hmapeq, ← hmapeq]
  have hall : allIndicesOf hm sx sz = allIndicesOfF hm sx sz := by
    unfold allIndicesOf allIndicesOfF
    exact congrArg _ (funext hcell)
  have hidx : indicesOf hm sx sz = indicesOfF hm sx sz := by
    unfold indicesOf indicesOfF
    refine congrArg _ (funext fun c => ?_)
    rw [hcell]
  have hacc : accNormals hm sx sz = accNormalsF hm sx sz := by
    unfold accNormals accNormalsF
    dsimp only
    rw [hpos, hnorm, hall]
  unfold generate_terrain_mesh generate_terrain_meshF
  dsimp only
  rw [hpos, huv, hacc, hidx]

lemma traceGo_steps_le (hm : Heightmap) (sxa sza exa eza : Nat) (startP : Nat × Nat) :
    ∀ (b : Nat) (cur : Nat × Nat) (pd : Nat)
      (bd : List ((Nat × Nat) × List (Nat × Nat))) (pr : List (Nat × Nat)),
      (traceGo hm sxa sza exa eza startP b cur pd bd pr).steps ≤ b := by
  intro b
  induction b with
  | zero => intro cur pd bd pr; simp [traceGo]
  | succ b ih =>
    intro cur pd bd pr
    simp only [traceGo]
    by_cases hb : b = 0
    · simp [hb]
    · rw [if_neg hb]
      cases hfn : findNext hm sxa sza exa eza cur pd with
      | none => simp
      | some nd =>
        obtain ⟨np, ndir⟩ := nd
        dsimp only
        by_cases hcl : 2 < (bd ++ [(cur, voidNeighborsOf hm cur)]).length ∧ np = startP
        · rw [if_pos hcl]
          show 1 ≤ b + 1
          omega
        · rw [if_neg hcl]
          dsimp only
          exact Nat.succ_le_succ (ih np ndir _ _)

lemma traceGo_processed_mono (hm : Heightmap) (sxa sza exa eza : Nat)
    (startP : Nat × Nat) :
    ∀ (b : Nat) (cur : Nat × Nat) (pd : Nat)
      (bd : List ((Nat × Nat) × List (Nat × Nat))) (pr : List (Nat × Nat))
      (q : Nat × Nat), q ∈ pr →
      q ∈ (traceGo hm sxa sza exa eza startP b cur pd bd pr).processed := by
  intro b
  induction b with
  | zero => intro cur pd bd pr q hq; simpa [traceGo] using hq
  | succ b ih =>
    intro cur pd bd pr q hq
    have hq2 : q ∈ (if cur ∈ pr then pr else pr ++ [cur]) := by
      split
      · exact hq
      · exact List.mem_append_left _ hq
    simp only [traceGo]
    by_cases hb : b = 0
    · simpa [hb] using hq
    · rw [if_neg hb]
      cases hfn : findNext hm sxa sza exa eza cur pd with
      | none => exact hq2
      | some nd =>
        obtain ⟨np, ndir⟩ := nd
        dsimp only
        by_cases hcl : 2 < (bd ++ [(cur, voidNeighborsOf hm cur)]).length ∧ np = startP
        · rw [if_pos hcl]
          exact hq2
        · rw [if_neg hcl]
          dsimp only
          exact ih np ndir _ _ q hq2

lemma traceGo_cur_processed (hm : Heightmap) (sxa sza exa eza : Nat)
    (startP : Nat × Nat) (b : Nat) (cur : Nat × Nat) (pd : Nat)
    (bd : List ((Nat × Nat) × List (Nat × Nat))) (pr : List (Nat × Nat))
    (hb2 : 2 ≤ b) :
    cur ∈ (traceGo hm sxa sza exa eza startP b cur pd bd pr).processed := by
  obtain ⟨b, rfl⟩ : ∃ b0, b = b0 + 1 := ⟨b - 1, by omega⟩
  have hb : ¬ b = 0 := by omega
  have hcur2 : cur ∈ (if cur ∈ pr then pr else pr ++ [cur]) := by
    split
    · assumption
    · exact List.mem_append_right _ (List.mem_singleton_self cur)
  simp only [traceGo]
  rw [if_neg hb]
  cases hfn : findNext hm sxa sza exa eza cur pd with
  | none => exact hcur2
  | some nd =>
    obtain ⟨np, ndir⟩ := nd
    dsimp only
    by_cases hcl : 2 < (bd ++ [(cur, voidNeighborsOf hm cur)]).length ∧ np = startP
    · rw [if_pos hcl]
      exact hcur2
    · rw [if_neg hcl]
      dsimp only
      exact traceGo_processed_mono hm sxa sza exa eza startP b np ndir _ _ cur hcur2

lemma filter_length_mono {l : List (Nat × Nat)} {p q : Nat × Nat → Bool}
    (himp : ∀ a, q a = true → p a = true) :
    (l.filter q).length ≤ (l.filter p).length := by
  induction l with
  | nil => simp
  | cons a l ih =>
    by_cases hqa : q a = true
    · rw [List.filter_cons_of_pos hqa, List.filter_cons_of_pos (himp a hqa)]
      simpa using ih
    · rw [List.filter_cons_of_neg (by simpa using hqa)]
      by_cases hpa : p a = true
      · rw [List.filter_cons_of_pos hpa]
        exact le_trans ih (by simp)
      · rw [List.filter_cons_of_neg (by simpa using hpa)]
        exact ih

lemma filter_length_lt {l : List (Nat × Nat)} {p q : Nat × Nat → Bool}
    (himp : ∀ a, q a = true → p a = true) {a0 : Nat × Nat} (ha0 : a0 ∈ l)
    (hp : p a0 = true) (hq : q a0 = false) :
    (l.filter q).length < (l.filter p).length := by
  induction l with
  | nil => simp at ha0
  | cons a l ih =>
    rcases List.mem_cons.mp ha0 with rfl | ha0'
    · rw [List.filter_cons_of_pos hp, List.filter_cons_of_neg (by simp [hq])]
      exact Nat.lt_succ_of_le (filter_length_mono himp)
    · by_cases hqa : q a = true
      · rw [List.filter_cons_of_pos hqa, List.filter_cons_of_pos (himp a hqa)]
        simpa using ih ha0'
      · rw [List.filter_cons_of_neg (by simpa using hqa)]
        by_cases hpa : p a = true
        · rw [List.filter_cons_of_pos hpa]
          exact Nat.lt_succ_of_lt (ih ha0')
        · rw [List.filter_cons_of_neg (by simpa using hpa)]
          exact ih ha0'

lemma borderLoopGo_isSome (hm : Heightmap) (sxa sza exa eza : Nat) :
    ∀ (fuel : Nat) (bps pr : List (Nat × Nat)) (cnt : Nat),
      (bps.filter fun p => decide (p ∉ pr)).length < fuel →
      (borderLoopGo hm sxa sza exa eza fuel bps pr cnt).isSome = true := by
  intro fuel
  induction fuel with
  | zero => intro bps pr cnt h; omega
  | succ fuel ih =>
    intro bps pr cnt h
    simp only [borderLoopGo]
    by_cases hbps : bps = []
    · simp [hbps]
    · rw [if_neg hbps]
      cases hfind : bps.find? (fun p => decide (p ∉ pr)) with
      | none => simp
      | some startP =>
        dsimp only
        have hmem : startP ∈ bps := List.mem_of_find?_eq_some hfind
        have hnp : startP ∉ pr := by
          have := List.find?_some hfind
          simpa using this
        have hlen : 1 ≤ bps.length := List.length_pos.mpr hbps
        have hrmono : ∀ q ∈ pr,
            q ∈ (traceGo hm sxa sza exa eza startP (2 * bps.length) startP 0 []
              pr).processed :=
          fun q hq => traceGo_processed_mono hm sxa sza exa eza startP _ _ _ _ _ q hq
        have hrstart : startP ∈ (traceGo hm sxa sza exa eza startP
            (2 * bps.length) startP 0 [] pr).processed :=
          traceGo_cur_processed hm sxa sza exa eza startP _ _ _ _ _ (by omega)
        have hdec : (bps.filter fun p => decide
              (p ∉ (traceGo hm sxa sza exa eza startP (2 * bps.length) startP 0 []
                pr).processed)).length
            < (bps.filter fun p => decide (p ∉ pr)).length := by
          refine filter_length_lt ?_ hmem (by simpa using hnp) (by simpa using hrstart)
          intro a ha
          simp only [decide_eq_true_eq] at ha ⊢
          exact fun hapr => ha (hrmono a hapr)
        split
        · exact ih _ _ _ (by omega)
        · refine ih _ _ _ ?_
          rw [List.filter_filter]
          simp only [Bool.and_self]
          omega

/-- Claim C9: the boundary tracer always terminates.  Each individual contour
trace performs at most `2 * n` loop iterations where `n` is the length of the
current unprocessed border-pixel list (the source's own
`max_iterations = border_pixels.len() * 2` budget), stopping earlier when no
qualifying next pixel exists or the contour closes; and the outer loop over
contours terminates because every iteration marks its (previously
unprocessed) start pixel as processed, which is witnessed here by the fuelled
outer loop always returning a value with fuel `border pixels + 1`. -/
theorem c9_tracer_termination (hm : Heightmap) (sxa sza exa eza : Nat) :
    (generate_border hm sxa sza exa eza).isSome = true ∧
    (∀ (bps pr : List (Nat × Nat)) (startP : Nat × Nat) (prevDir : Nat),
      (traceGo hm sxa sza exa eza startP (2 * bps.length) startP prevDir []
        pr).steps ≤ 2 * bps.length) ∧
    (∀ (bps pr : List (Nat × Nat)) (startP : Nat × Nat),
      bps.find? (fun p => decide (p ∉ pr)) = some startP →
      startP ∉ pr ∧
      startP ∈ (traceGo hm sxa sza exa eza startP (2 * bps.length) startP 0 []
        pr).processed) := by
  refine ⟨?_, ?_, ?_⟩
  · unfold generate_border
    refine borderLoopGo_isSome hm sxa sza exa eza _ _ _ _ ?_
    have := filter_length_mono (l := borderPixelsOf hm sxa sza exa eza)
      (q := fun p => decide (p ∉ ([] : List (Nat × Nat)))) (p := fun _ => true)
      (by intro a _; rfl)
    simp only [List.filter_true] at this
    omega
  · intro bps pr startP prevDir
    exact traceGo_steps_le hm sxa sza exa eza startP _ _ _ _ _
  · intro bps pr startP hfind
    have hmem : startP ∈ bps := List.mem_of_find?_eq_some hfind
    have hnp : startP ∉ pr := by
      have := List.find?_some hfind
      simpa using this
    have hlen : 1 ≤ bps.length := List.length_pos.mpr (by rintro rfl; simp at hmem)
    exact ⟨hnp, traceGo_cur_processed hm sxa sza exa eza startP _ _ _ _ _ (by omega)⟩

/-- Witness for C9 on the uniform 3 by 3 raster (every pixel is a border
pixel), window `[0, 3) x [0, 3)`. -/
theorem c9_witness :
    (generate_border hm3 0 0 3 3).isSome = true ∧
    ((borderPixelsOf hm3 0 0 3 3).find?
        (fun p => decide (p ∉ ([] : List (Nat × Nat)))) = some (0, 0)) ∧
    ((0, 0) ∉ ([] : List (Nat × Nat)) ∧
      (0, 0) ∈ (traceGo hm3 0 0 3 3 (0, 0)
        (2 * (borderPixelsOf hm3 0 0 3 3).length) (0, 0) 0 [] []).processed) ∧
    (traceGo hm3 0 0 3 3 (0, 0) (2 * (borderPixelsOf hm3 0 0 3 3).length)
        (0, 0) 0 [] []).steps ≤ 2 * (borderPixelsOf hm3 0 0 3 3).length :=
  ⟨(c9_tracer_termination hm3 0 0 3 3).1, by decide,
    (c9_tracer_termination hm3 0 0 3 3).2.2 (borderPixelsOf hm3 0 0 3 3) [] (0, 0)
      (by decide),
    (c9_tracer_termination hm3 0 0 3 3).2.1 (borderPixelsOf hm3 0 0 3 3) [] (0, 0) 0⟩

lemma process_border_id (hm : Heightmap) (x z : Nat) (d : Direction)
    (st : MeshBuffer) : process_border hm x z d st = st := by
  unfold process_border process_line_border
  split <;> rfl

lemma foldl_const {α β : Type} (f : β → α → β) (h : ∀ s a, f s a = s) :
    ∀ (l : List α) (s : β), l.foldl f s = s := by
  intro l
  induction l with
  | nil => intro s; rfl
  | cons a l ih => intro s; rw [List.foldl_cons, h s a]; exact ih s

/-- Claim C10: `make_borders` leaves all four mesh buffers exactly as they
were on entry — despite receiving them as mutable references, no path through
the border classification appends to or modifies any of them (`Line` borders
reach `process_line_border`, which computes an unused height and only
prints). -/
theorem c10_make_borders_frame (sx sz csize : Nat) (hm : Heightmap)
    (st : MeshBuffer) : make_borders sx sz csize hm st = st := by
  unfold make_borders
  refine foldl_const _ ?_ _ _
  intro s p
  dsimp only
  split
  · rfl
  · split
    · simp only [process_border_id]
      split <;> split <;> split <;> split <;> rfl
    · rfl

end Terrain
